import Mathlib

/-!
Verification of the `botp` library (src/lib.rs): a BLAKE3-keyed variant of
counter-based one-time passwords producing 11-digit codes.

The Rust source is shallowly embedded below: 32-byte digests and secrets are
`Fin 32 → Nat` (each entry a byte value), `u64` arithmetic is `Nat` with
explicit `% 2 ^ 64` where the result type matters, and fallible steps return
`Option`/`Except`.  The external BLAKE3 `keyed_hash` primitive (from the
`blake3` crate, outside this repository) is a parameter of `botp`.
-/

namespace Botp

/-- The library's error enum (`enum Error` in src/lib.rs): `TimeError` and
`RandomBytesError`. -/
inductive Error where
  | TimeError : Error
  | RandomBytesError : Error
deriving DecidableEq, Repr

/-- `wrapped_index` from the `WrapIndex` impl for slices (src/lib.rs lines
40–43), specialized to the 32-byte arrays `truncate` applies it to:
`self[index % self.len()]` with `self.len() = 32`. -/
def wrapped_index (a : Fin 32 → Nat) (index : Nat) : Nat :=
  a ⟨index % 32, Nat.mod_lt index (by norm_num)⟩

/-- `truncate` (src/lib.rs lines 55–75): the offset is the last hash byte
reduced mod 28; eight bytes are read at wrapped indices `offset + k`
(k = 0..7), the first masked with `0x7f` and the rest with `0xff`; the masked
bytes are assembled big-endian into a `u64` (`u64::from_be_bytes`, hence the
`% 2 ^ 64`, which never truncates since every masked byte is below 256) and
reduced mod 10^11.  The debug `println!` calls have no effect on the result
and are omitted. -/
def truncate (hash_bytes : Fin 32 → Nat) : Nat :=
  let offset : Nat := hash_bytes 31 % 28
  let binned_code : Nat :=
    ((wrapped_index hash_bytes offset &&& 0x7f) * 2 ^ 56 +
     (wrapped_index hash_bytes (offset + 1) &&& 0xff) * 2 ^ 48 +
     (wrapped_index hash_bytes (offset + 2) &&& 0xff) * 2 ^ 40 +
     (wrapped_index hash_bytes (offset + 3) &&& 0xff) * 2 ^ 32 +
     (wrapped_index hash_bytes (offset + 4) &&& 0xff) * 2 ^ 24 +
     (wrapped_index hash_bytes (offset + 5) &&& 0xff) * 2 ^ 16 +
     (wrapped_index hash_bytes (offset + 6) &&& 0xff) * 2 ^ 8 +
     (wrapped_index hash_bytes (offset + 7) &&& 0xff)) % 2 ^ 64
  binned_code % 100000000000

/-- The pre-reduction 64-bit value assembled inside `truncate` (the
`binned_code` local of src/lib.rs lines 59–69), exposed for the statements
about masking. -/
def binned_code (hash_bytes : Fin 32 → Nat) : Nat :=
  let offset : Nat := hash_bytes 31 % 28
  ((wrapped_index hash_bytes offset &&& 0x7f) * 2 ^ 56 +
   (wrapped_index hash_bytes (offset + 1) &&& 0xff) * 2 ^ 48 +
   (wrapped_index hash_bytes (offset + 2) &&& 0xff) * 2 ^ 40 +
   (wrapped_index hash_bytes (offset + 3) &&& 0xff) * 2 ^ 32 +
   (wrapped_index hash_bytes (offset + 4) &&& 0xff) * 2 ^ 24 +
   (wrapped_index hash_bytes (offset + 5) &&& 0xff) * 2 ^ 16 +
   (wrapped_index hash_bytes (offset + 6) &&& 0xff) * 2 ^ 8 +
   (wrapped_index hash_bytes (offset + 7) &&& 0xff)) % 2 ^ 64

/-- `u64::to_be_bytes`: byte `k` of the big-endian serialization of a 64-bit
counter (byte 0 is the most significant). -/
def u64_to_be_bytes (counter : Nat) : Fin 8 → Nat := fun k =>
  counter / 2 ^ (8 * (7 - (k : Nat))) % 256

/-- `botp` (src/lib.rs lines 46–53), parameterized by the external BLAKE3
`keyed_hash` primitive (first argument the 32-byte key, second the message —
here the 8 counter bytes — returning the 32-byte digest): serialize the
counter big-endian, hash it keyed by the secret, truncate the digest. -/
def botp (keyed_hash : (Fin 32 → Nat) → (Fin 8 → Nat) → (Fin 32 → Nat))
    (counter : Nat) (secret : Fin 32 → Nat) : Nat :=
  let counter_ne : Fin 8 → Nat := u64_to_be_bytes counter
  let hash_bytes : Fin 32 → Nat := keyed_hash secret counter_ne
  truncate hash_bytes

/-- C1: for every counter and every 32-byte secret (and any keyed-hash
primitive), the code returned by `botp` — equivalently by `truncate` on any
32-byte hash — lies in [0, 10^11). -/
theorem botp_code_in_range
    (keyed_hash : (Fin 32 → Nat) → (Fin 8 → Nat) → (Fin 32 → Nat))
    (counter : Nat) (secret : Fin 32 → Nat) (hash_bytes : Fin 32 → Nat) :
    botp keyed_hash counter secret < 100000000000 ∧
    truncate hash_bytes < 100000000000 := by
  constructor <;> exact Nat.mod_lt _ (by norm_num)

/-- A `SystemTime` instant, modelled as whole nanoseconds since an arbitrary
fixed origin (Rust's `SystemTime` has nanosecond precision). -/
abbrev Instant := Nat

/-- `SystemTime::duration_since`: the elapsed duration (in nanoseconds) when
`now` is at or after `epoch`, and `none` (the `SystemTimeError` branch) when
`now` precedes `epoch`. -/
def duration_since (now epoch : Instant) : Option Nat :=
  if epoch ≤ now then some (now - epoch) else none

/-- `Duration::as_secs`: the whole seconds of a nanosecond duration. -/
def as_secs (d : Nat) : Nat := d / 1000000000

/-- Rust `u64` division, which panics on a zero divisor: `none` models the
panic. -/
def checked_div (a b : Nat) : Option Nat :=
  if b = 0 then none else some (a / b)

/-- `get_counter` (src/lib.rs lines 77–82), with the `SystemTime::now()`
reading made an explicit `now` argument.  The outer `Option` is `none`
exactly when the Rust code panics (`t.as_secs() / interval` with
`interval = 0`); otherwise it carries the `Result<u64, Error>` value. -/
def get_counter (interval : Nat) (epoch now : Instant) :
    Option (Except Error Nat) :=
  match duration_since now epoch with
  | some t => (checked_div (as_secs t) interval).map Except.ok
  | none => some (Except.error Error.TimeError)

/-- C2: the offset used by `truncate` is the last hash byte (index 31) reduced
mod 28, hence lies in [0, 28); the k-th selected byte (k = 0..7) is the hash
byte at index `(offset + k) % 32`; and when the offset is 27 the window reads
indices 27, 28, 29, 30, 31, 0, 1, 2. -/
theorem truncate_offset_window (h : Fin 32 → Nat) :
    h 31 % 28 < 28 ∧
    (∀ k : Nat, k < 8 →
      wrapped_index h (h 31 % 28 + k) =
        h ⟨(h 31 % 28 + k) % 32, Nat.mod_lt _ (by norm_num)⟩) ∧
    (h 31 % 28 = 27 →
      wrapped_index h (h 31 % 28) = h 27 ∧
      wrapped_index h (h 31 % 28 + 1) = h 28 ∧
      wrapped_index h (h 31 % 28 + 2) = h 29 ∧
      wrapped_index h (h 31 % 28 + 3) = h 30 ∧
      wrapped_index h (h 31 % 28 + 4) = h 31 ∧
      wrapped_index h (h 31 % 28 + 5) = h 0 ∧
      wrapped_index h (h 31 % 28 + 6) = h 1 ∧
      wrapped_index h (h 31 % 28 + 7) = h 2) := by
  refine ⟨Nat.mod_lt _ (by norm_num), fun k _ => rfl, fun ho => ?_⟩
  rw [ho]
  exact ⟨rfl, rfl, rfl, rfl, rfl, rfl, rfl, rfl⟩

/-- Witness for C2: on the all-27 hash the offset is 27 and the window wraps
(indices 30 and 0 both read byte value 27). -/
theorem truncate_offset_window_witness :
    wrapped_index (fun _ : Fin 32 => 27) (27 + 3) = 27 ∧
    wrapped_index (fun _ : Fin 32 => 27) (27 + 5) = 27 := by
  have hw := truncate_offset_window (fun _ : Fin 32 => 27)
  refine ⟨?_, ?_⟩
  · simpa using hw.2.1 3 (by norm_num)
  · simpa using (hw.2.2 rfl).2.2.2.2.2.1

/-- C3: `truncate` reduces exactly the masked big-endian assembly
(`binned_code`), whose first byte is masked with `0x7f` and remaining bytes
with `0xff`, so the assembled 64-bit value always has its top bit clear:
`binned_code` is strictly below `2 ^ 63`. -/
theorem binned_code_top_bit_clear (h : Fin 32 → Nat) :
    truncate h = binned_code h % 100000000000 ∧ binned_code h < 2 ^ 63 := by
  refine ⟨rfl, ?_⟩
  have b0 : wrapped_index h (h 31 % 28) &&& 0x7f ≤ 127 := Nat.and_le_right
  have b1 : wrapped_index h (h 31 % 28 + 1) &&& 0xff ≤ 255 := Nat.and_le_right
  have b2 : wrapped_index h (h 31 % 28 + 2) &&& 0xff ≤ 255 := Nat.and_le_right
  have b3 : wrapped_index h (h 31 % 28 + 3) &&& 0xff ≤ 255 := Nat.and_le_right
  have b4 : wrapped_index h (h 31 % 28 + 4) &&& 0xff ≤ 255 := Nat.and_le_right
  have b5 : wrapped_index h (h 31 % 28 + 5) &&& 0xff ≤ 255 := Nat.and_le_right
  have b6 : wrapped_index h (h 31 % 28 + 6) &&& 0xff ≤ 255 := Nat.and_le_right
  have b7 : wrapped_index h (h 31 % 28 + 7) &&& 0xff ≤ 255 := Nat.and_le_right
  unfold binned_code
  refine lt_of_le_of_lt (Nat.mod_le _ _) ?_
  norm_num only at b0 b1 b2 b3 b4 b5 b6 b7 ⊢
  omega

/-- C4: `botp` is a pure deterministic function — equal counters and equal
secrets (under the same keyed-hash primitive) produce identical codes. -/
theorem botp_deterministic
    (keyed_hash : (Fin 32 → Nat) → (Fin 8 → Nat) → (Fin 32 → Nat))
    (c1 c2 : Nat) (s1 s2 : Fin 32 → Nat) (hc : c1 = c2) (hs : s1 = s2) :
    botp keyed_hash c1 s1 = botp keyed_hash c2 s2 := by
  rw [hc, hs]

/-- Witness for C4 at the zero keyed hash, counter 0 and the zero secret. -/
theorem botp_deterministic_witness :
    botp (fun _ _ _ => 0) 0 (fun _ => 0) = botp (fun _ _ _ => 0) 0 (fun _ => 0) :=
  botp_deterministic (fun _ _ _ => 0) 0 0 (fun _ => 0) (fun _ => 0) rfl rfl

/-- Helper: with a positive interval and `now` at or after the epoch,
`get_counter` returns the floored quotient of elapsed whole seconds by the
interval. -/
theorem get_counter_ok (interval : Nat) (epoch now : Instant)
    (hi : 0 < interval) (hle : epoch ≤ now) :
    get_counter interval epoch now =
      some (Except.ok ((now - epoch) / 1000000000 / interval)) := by
  simp [get_counter, duration_since, checked_div, as_secs, hle, hi.ne']

/-- Helper: when `now` precedes the epoch, `get_counter` returns
`Err(TimeError)` without dividing. -/
theorem get_counter_err (interval : Nat) (epoch now : Instant)
    (hlt : now < epoch) :
    get_counter interval epoch now = some (Except.error Error.TimeError) := by
  simp [get_counter, duration_since, not_le.mpr hlt]

/-- C5: for a positive interval, `get_counter` yields
`Ok(floor(elapsed seconds / interval))` whenever `now` is at or after the
epoch, and the `TimeError` kind — never a wrapped or negative counter —
whenever `now` precedes the epoch. -/
theorem get_counter_spec (interval : Nat) (epoch now : Instant)
    (hi : 0 < interval) :
    (epoch ≤ now →
      get_counter interval epoch now =
        some (Except.ok ((now - epoch) / 1000000000 / interval))) ∧
    (now < epoch →
      get_counter interval epoch now = some (Except.error Error.TimeError)) :=
  ⟨fun hle => get_counter_ok interval epoch now hi hle,
   fun hlt => get_counter_err interval epoch now hlt⟩

/-- Witness for C5: interval 30 s, one whole elapsed 30-second step gives
counter 1; a clock 3 ns before the epoch gives `TimeError`. -/
theorem get_counter_spec_witness :
    get_counter 30 1000000000 31000000000 = some (Except.ok 1) ∧
    get_counter 30 5 2 = some (Except.error Error.TimeError) := by
  constructor
  · have h := (get_counter_spec 30 1000000000 31000000000 (by norm_num)).1
      (by norm_num)
    simpa using h
  · exact (get_counter_spec 30 5 2 (by norm_num)).2 (by norm_num)

/-- C6 counterexample: with `interval = 0` and the clock exactly at the epoch,
`get_counter` reaches the unguarded division and faults (`none`, the modelled
panic) instead of returning a distinct error value. -/
theorem get_counter_zero_interval_counterexample :
    get_counter 0 0 0 = none := rfl

/-- C6 amended: `get_counter` does not reject `interval = 0`; whenever `now`
is at or after the epoch it reaches the division by zero and faults (modelled
`none`), and only the `TimeError` branch (clock before epoch) avoids the
division. -/
theorem get_counter_zero_interval (epoch now : Instant) :
    (epoch ≤ now → get_counter 0 epoch now = none) ∧
    (now < epoch →
      get_counter 0 epoch now = some (Except.error Error.TimeError)) := by
  constructor
  · intro hle
    simp [get_counter, duration_since, checked_div, hle]
  · intro hlt
    exact get_counter_err 0 epoch now hlt

/-- Witness for the amended C6: a concrete fault at interval 0 and a concrete
`TimeError` when the clock is before the epoch. -/
theorem get_counter_zero_interval_witness :
    get_counter 0 2 5 = none ∧
    get_counter 0 5 2 = some (Except.error Error.TimeError) :=
  ⟨(get_counter_zero_interval 2 5).1 (by norm_num),
   (get_counter_zero_interval 5 2).2 (by norm_num)⟩

/-- C7: for a fixed positive interval and epoch, the counter is monotonically
non-decreasing in the clock reading: for `epoch ≤ t1 ≤ t2` both calls succeed
with counters `c1 ≤ c2`, and two times inside the same interval window
(window `w` spans `[epoch + w·interval·10^9, epoch + (w+1)·interval·10^9)`
nanoseconds) yield equal counters. -/
theorem get_counter_monotone (interval : Nat) (epoch t1 t2 : Instant)
    (hi : 0 < interval) (h1 : epoch ≤ t1) (h12 : t1 ≤ t2) :
    get_counter interval epoch t1 =
      some (Except.ok ((t1 - epoch) / 1000000000 / interval)) ∧
    get_counter interval epoch t2 =
      some (Except.ok ((t2 - epoch) / 1000000000 / interval)) ∧
    (t1 - epoch) / 1000000000 / interval ≤
      (t2 - epoch) / 1000000000 / interval ∧
    (∀ w : Nat, epoch + w * (interval * 1000000000) ≤ t1 →
      t2 < epoch + (w + 1) * (interval * 1000000000) →
      (t1 - epoch) / 1000000000 / interval =
        (t2 - epoch) / 1000000000 / interval) := by
  have h2 : epoch ≤ t2 := le_trans h1 h12
  refine ⟨get_counter_ok interval epoch t1 hi h1,
    get_counter_ok interval epoch t2 hi h2,
    Nat.div_le_div_right (Nat.div_le_div_right (Nat.sub_le_sub_right h12 epoch)),
    fun w hw1 hw2 => ?_⟩
  have e1 : (t1 - epoch) / 1000000000 / interval =
      (t1 - epoch) / (interval * 1000000000) := by
    rw [Nat.div_div_eq_div_mul, Nat.mul_comm]
  have e2 : (t2 - epoch) / 1000000000 / interval =
      (t2 - epoch) / (interval * 1000000000) := by
    rw [Nat.div_div_eq_div_mul, Nat.mul_comm]
  rw [e1, e2]
  have l1 : w * (interval * 1000000000) ≤ t1 - epoch := by
    rw [Nat.add_comm] at hw1
    exact Nat.le_sub_of_add_le hw1
  have l2 : w * (interval * 1000000000) ≤ t2 - epoch :=
    le_trans l1 (Nat.sub_le_sub_right h12 epoch)
  have u1 : t1 - epoch < (w + 1) * (interval * 1000000000) :=
    (tsub_lt_iff_left h1).mpr (lt_of_le_of_lt h12 hw2)
  have u2 : t2 - epoch < (w + 1) * (interval * 1000000000) :=
    (tsub_lt_iff_left h2).mpr hw2
  rw [Nat.div_eq_of_lt_le l1 u1, Nat.div_eq_of_lt_le l2 u2]

/-- Witness for C7: interval 30 s, epoch 0; clock readings 10 s and 20 s lie
in window 0 and both produce counter 0. -/
theorem get_counter_monotone_witness :
    get_counter 30 0 10000000000 = some (Except.ok 0) ∧
    get_counter 30 0 20000000000 = some (Except.ok 0) ∧
    (10000000000 - 0) / 1000000000 / 30 = (20000000000 - 0) / 1000000000 / 30 := by
  have h := get_counter_monotone 30 0 10000000000 20000000000
    (by norm_num) (by norm_num) (by norm_num)
  refine ⟨?_, ?_, h.2.2.2 0 (by norm_num) (by norm_num)⟩
  · simpa using h.1
  · simpa using h.2.1

/-- C8: `botp` serializes the counter as exactly 8 big-endian bytes (each a
byte value, reassembling most-significant-first to the counter), feeds them
as the message of the keyed hash with the secret as the key, and the final
code is the masked truncation value (`binned_code`) of that 32-byte digest
reduced mod 10^11. -/
theorem botp_pipeline
    (keyed_hash : (Fin 32 → Nat) → (Fin 8 → Nat) → (Fin 32 → Nat))
    (counter : Nat) (secret : Fin 32 → Nat) (hc : counter < 2 ^ 64) :
    (∀ k : Fin 8, u64_to_be_bytes counter k < 256) ∧
    u64_to_be_bytes counter 0 * 2 ^ 56 + u64_to_be_bytes counter 1 * 2 ^ 48 +
      u64_to_be_bytes counter 2 * 2 ^ 40 + u64_to_be_bytes counter 3 * 2 ^ 32 +
      u64_to_be_bytes counter 4 * 2 ^ 24 + u64_to_be_bytes counter 5 * 2 ^ 16 +
      u64_to_be_bytes counter 6 * 2 ^ 8 + u64_to_be_bytes counter 7 = counter ∧
    botp keyed_hash counter secret =
      binned_code (keyed_hash secret (u64_to_be_bytes counter)) %
        100000000000 := by
  refine ⟨fun k => Nat.mod_lt _ (by norm_num), ?_, rfl⟩
  show counter / 2 ^ 56 % 256 * 2 ^ 56 + counter / 2 ^ 48 % 256 * 2 ^ 48 +
    counter / 2 ^ 40 % 256 * 2 ^ 40 + counter / 2 ^ 32 % 256 * 2 ^ 32 +
    counter / 2 ^ 24 % 256 * 2 ^ 24 + counter / 2 ^ 16 % 256 * 2 ^ 16 +
    counter / 2 ^ 8 % 256 * 2 ^ 8 + counter / 2 ^ 0 % 256 = counter
  norm_num at hc ⊢
  omega

/-- Witness for C8 at counter 300 and the constant-zero keyed hash. -/
theorem botp_pipeline_witness :
    u64_to_be_bytes 300 0 * 2 ^ 56 + u64_to_be_bytes 300 1 * 2 ^ 48 +
      u64_to_be_bytes 300 2 * 2 ^ 40 + u64_to_be_bytes 300 3 * 2 ^ 32 +
      u64_to_be_bytes 300 4 * 2 ^ 24 + u64_to_be_bytes 300 5 * 2 ^ 16 +
      u64_to_be_bytes 300 6 * 2 ^ 8 + u64_to_be_bytes 300 7 = 300 ∧
    botp (fun _ _ _ => 0) 300 (fun _ => 0) =
      binned_code ((fun _ _ _ => (0 : Nat)) (fun _ : Fin 32 => (0 : Nat))
        (u64_to_be_bytes 300)) % 100000000000 := by
  have h := botp_pipeline (fun _ _ _ => 0) 300 (fun _ => 0) (by norm_num)
  exact ⟨h.2.1, h.2.2⟩

/-- View a 32-element list as the `Fin 32 → Nat` hash array `truncate` reads
(out-of-range defaults never fire on length-32 lists). -/
def list_to_hash (l : List Nat) : Fin 32 → Nat := fun i => l.getD i 0

/-- `truncate` with every slice access made explicit and bounds-checked: each
byte is fetched with `List.get?` at the index `wrapped_index` computes
(`(offset + k) % len`), so a `none` result would mark an out-of-bounds
access (the Rust panic). -/
def truncate_checked (l : List Nat) : Option Nat := do
  let last ← l.get? 31
  let offset := last % 28
  let b0 ← l.get? (offset % l.length)
  let b1 ← l.get? ((offset + 1) % l.length)
  let b2 ← l.get? ((offset + 2) % l.length)
  let b3 ← l.get? ((offset + 3) % l.length)
  let b4 ← l.get? ((offset + 4) % l.length)
  let b5 ← l.get? ((offset + 5) % l.length)
  let b6 ← l.get? ((offset + 6) % l.length)
  let b7 ← l.get? ((offset + 7) % l.length)
  some ((((b0 &&& 0x7f) * 2 ^ 56 + (b1 &&& 0xff) * 2 ^ 48 +
    (b2 &&& 0xff) * 2 ^ 40 + (b3 &&& 0xff) * 2 ^ 32 + (b4 &&& 0xff) * 2 ^ 24 +
    (b5 &&& 0xff) * 2 ^ 16 + (b6 &&& 0xff) * 2 ^ 8 + (b7 &&& 0xff)) % 2 ^ 64) %
    100000000000)

/-- Helper: on an in-range index, `List.get?` returns the `getD` value. -/
theorem get_opt_eq_some_getD (l : List Nat) (i : Nat) (h : i < l.length) :
    l.get? i = some (l.getD i 0) := by
  rw [List.getD_eq_getElem?_getD, List.get?_eq_getElem?,
    List.getElem?_eq_getElem h]
  rfl

/-- C9: truncation is total — on every 32-byte hash, every bounds-checked
access of `truncate_checked` succeeds (the wrapped index is in bounds by
construction), and the result is exactly `truncate`'s value: no bounds-check
failure or panic can occur. -/
theorem truncate_total (l : List Nat) (hl : l.length = 32) :
    truncate_checked l = some (truncate (list_to_hash l)) := by
  have hmod : ∀ i : Nat, l.get? (i % 32) = some (l.getD (i % 32) 0) :=
    fun i => get_opt_eq_some_getD l (i % 32) (by omega)
  unfold truncate_checked
  simp only [hl]
  rw [get_opt_eq_some_getD l 31 (by omega)]
  simp only [Option.some_bind, hmod]
  rfl

/-- Witness for C9 on the all-zero 32-byte hash. -/
theorem truncate_total_witness :
    truncate_checked (List.replicate 32 0) =
      some (truncate (list_to_hash (List.replicate 32 0))) :=
  truncate_total (List.replicate 32 0) (by simp)

/-- Truncation with a plain, non-wrapping 8-byte read at the offset (the
conventional dynamic-truncation window shape), for comparison with the
wrapped selection of `truncate`. -/
def truncate_nowrap (l : List Nat) : Option Nat := do
  let last ← l.get? 31
  let offset := last % 28
  let b0 ← l.get? offset
  let b1 ← l.get? (offset + 1)
  let b2 ← l.get? (offset + 2)
  let b3 ← l.get? (offset + 3)
  let b4 ← l.get? (offset + 4)
  let b5 ← l.get? (offset + 5)
  let b6 ← l.get? (offset + 6)
  let b7 ← l.get? (offset + 7)
  some ((((b0 &&& 0x7f) * 2 ^ 56 + (b1 &&& 0xff) * 2 ^ 48 +
    (b2 &&& 0xff) * 2 ^ 40 + (b3 &&& 0xff) * 2 ^ 32 + (b4 &&& 0xff) * 2 ^ 24 +
    (b5 &&& 0xff) * 2 ^ 16 + (b6 &&& 0xff) * 2 ^ 8 + (b7 &&& 0xff)) % 2 ^ 64) %
    100000000000)

/-- C10: when the derived offset is at most 24 none of the eight wrapped
indices actually wraps (`(offset + k) % 32 = offset + k`) and `truncate`
agrees with the plain non-wrapping 8-byte read `truncate_nowrap`; wraparound
is genuinely exercised only for offsets 25, 26, 27 (already at k = 7 the
wrapped index differs). -/
theorem truncate_nowrap_refines (l : List Nat) (hl : l.length = 32) :
    (l.getD 31 0 % 28 ≤ 24 →
      (∀ k : Nat, k < 8 →
        (l.getD 31 0 % 28 + k) % 32 = l.getD 31 0 % 28 + k) ∧
      truncate_nowrap l = some (truncate (list_to_hash l))) ∧
    (25 ≤ l.getD 31 0 % 28 →
      (l.getD 31 0 % 28 + 7) % 32 ≠ l.getD 31 0 % 28 + 7) := by
  constructor
  · intro hoff
    refine ⟨fun k hk => Nat.mod_eq_of_lt (by omega), ?_⟩
    have hsel : ∀ k : Nat, k < 8 →
        l.get? (l.getD 31 0 % 28 + k) =
          some (l.getD (l.getD 31 0 % 28 + k) 0) :=
      fun k hk => get_opt_eq_some_getD l _ (by omega)
    have ht : truncate (list_to_hash l) =
        ((l.getD (l.getD 31 0 % 28 % 32) 0 &&& 0x7f) * 2 ^ 56 +
         (l.getD ((l.getD 31 0 % 28 + 1) % 32) 0 &&& 0xff) * 2 ^ 48 +
         (l.getD ((l.getD 31 0 % 28 + 2) % 32) 0 &&& 0xff) * 2 ^ 40 +
         (l.getD ((l.getD 31 0 % 28 + 3) % 32) 0 &&& 0xff) * 2 ^ 32 +
         (l.getD ((l.getD 31 0 % 28 + 4) % 32) 0 &&& 0xff) * 2 ^ 24 +
         (l.getD ((l.getD 31 0 % 28 + 5) % 32) 0 &&& 0xff) * 2 ^ 16 +
         (l.getD ((l.getD 31 0 % 28 + 6) % 32) 0 &&& 0xff) * 2 ^ 8 +
         (l.getD ((l.getD 31 0 % 28 + 7) % 32) 0 &&& 0xff)) % 2 ^ 64 %
          100000000000 := rfl
    rw [Nat.mod_eq_of_lt (show l.getD 31 0 % 28 < 32 by omega),
      Nat.mod_eq_of_lt (show l.getD 31 0 % 28 + 1 < 32 by omega),
      Nat.mod_eq_of_lt (show l.getD 31 0 % 28 + 2 < 32 by omega),
      Nat.mod_eq_of_lt (show l.getD 31 0 % 28 + 3 < 32 by omega),
      Nat.mod_eq_of_lt (show l.getD 31 0 % 28 + 4 < 32 by omega),
      Nat.mod_eq_of_lt (show l.getD 31 0 % 28 + 5 < 32 by omega),
      Nat.mod_eq_of_lt (show l.getD 31 0 % 28 + 6 < 32 by omega),
      Nat.mod_eq_of_lt (show l.getD 31 0 % 28 + 7 < 32 by omega)] at ht
    unfold truncate_nowrap
    simp only [get_opt_eq_some_getD l 31 (by omega),
      get_opt_eq_some_getD l (l.getD 31 0 % 28) (by omega),
      hsel 1 (by norm_num), hsel 2 (by norm_num), hsel 3 (by norm_num),
      hsel 4 (by norm_num), hsel 5 (by norm_num), hsel 6 (by norm_num),
      hsel 7 (by norm_num), Option.bind_eq_bind', Option.some_bind, ht]
  · intro hoff
    have h28 : l.getD 31 0 % 28 < 28 := Nat.mod_lt _ (by norm_num)
    omega

/-- Witness for C10: the all-zero hash (offset 0) agrees with the plain read;
the hash ending in byte 27 (offset 27) has a genuinely wrapping index. -/
theorem truncate_nowrap_refines_witness :
    truncate_nowrap (List.replicate 32 0) =
      some (truncate (list_to_hash (List.replicate 32 0))) ∧
    ((List.replicate 31 0 ++ [27]).getD 31 0 % 28 + 7) % 32 ≠
      (List.replicate 31 0 ++ [27]).getD 31 0 % 28 + 7 := by
  constructor
  · exact ((truncate_nowrap_refines (List.replicate 32 0) (by simp)).1
      (by decide)).2
  · exact (truncate_nowrap_refines (List.replicate 31 0 ++ [27])
      (by simp)).2 (by decide)

end Botp
